import Mathlib

/-!
Verification development for the NGN data store (src/lib/store.js).

The store keeps an ordered list of records, per-field secondary indexes
(field name mapped to a list of buckets, each bucket being a JS array whose
first element is a field value and whose remaining elements are record
positions), an ordered filter list, and created/deleted change-tracking
lists.  The definitions below are a shallow embedding of the relevant
methods of the Store class; each definition carries a pointer to the source
lines it embeds.  JS numbers appearing in the claims are naturals (record
positions and small field values), JS strings are Lean strings, and the
absent/undefined value is represented by Option.none.
-/

namespace NgnStore

/-- A JavaScript value as stored in record fields and index buckets. -/
inductive JSVal where
  | num (n : Nat)
  | str (s : String)
  | bool (b : Bool)
deriving DecidableEq

/-- A data record.  The external NGN.DATA.Model capability is modelled as a
field list plus the two properties the store reads: idAttribute (the name
of the identifying field) and checksum (the opaque identity token used for
duplicate detection).  JS reference equality between record objects is
modelled by structural equality; theorems that depend on a record being a
fresh object carry explicit freshness hypotheses. -/
structure Record where
  fields : List (String × JSVal)
  idAttribute : String
  checksum : Nat
deriving DecidableEq

/-- Property read record[f]; none models an absent property (undefined). -/
def Record.get (r : Record) (f : String) : Option JSVal :=
  (r.fields.find? (fun kv => decide (kv.1 = f))).map (fun kv => kv.2)

/-- record.hasOwnProperty(f), as used by applyIndices (store.js:787). -/
def Record.hasField (r : Record) (f : String) : Bool :=
  (r.fields.find? (fun kv => decide (kv.1 = f))).isSome

/-- Mutating a record field: some v sets the field (the field.update event
path), none deletes it (the field.delete event path). -/
def Record.setField (r : Record) (f : String) (v : Option JSVal) : Record :=
  match v with
  | none => { r with fields := r.fields.filter (fun kv => decide (kv.1 ≠ f)) }
  | some x =>
    if (r.fields.find? (fun kv => decide (kv.1 = f))).isSome then
      { r with fields := r.fields.map (fun kv => if kv.1 = f then (f, x) else kv) }
    else
      { r with fields := r.fields ++ [(f, x)] }

/-- The index table: _index maps a field name to its bucket list
(store.js:66-70 and the trailing documentation block, store.js:901-918).
A bucket is a JS array [value, position, position, ...]; it is modelled as
a plain list of JS values whose head is the field value. -/
abbrev IndexT := List (String × List (List JSVal))

/-- this._index.hasOwnProperty(field) / this._index[field]. -/
def lookupField (idx : IndexT) (f : String) : Option (List (List JSVal)) :=
  ((idx : List (String × List (List JSVal))).find?
    (fun fb => decide (fb.1 = f))).map (fun fb => fb.2)

/-- The bucket-scan loop of applyIndices (store.js:790-797): find the first
bucket whose first element equals the field value and push the position
onto it, otherwise append a new bucket [value, position]. -/
def bucketsApply (v : JSVal) (num : Nat) : List (List JSVal) → List (List JSVal)
  | [] => [[v, JSVal.num num]]
  | b :: rest =>
    if b.head? = some v then (b ++ [JSVal.num num]) :: rest
    else b :: bucketsApply v num rest

/-- applyIndices(record, num) (store.js:780-800), acting on the index table:
for every indexed field the record possesses, insert the position into the
bucket for the current field value. -/
def applyIndicesT (r : Record) (num : Nat) (idx : IndexT) : IndexT :=
  (idx : List (String × List (List JSVal))).map (fun fb =>
    match r.get fb.1 with
    | none => fb
    | some v => (fb.1, bucketsApply v num fb.2))

/-- JS strict equality between a bucket (an Array object) and a number:
always false, because === never equates an object with a primitive.  This
is the comparison performed elementwise by the indexOf call in
unapplyIndices (store.js:813), whose receiver is the list of buckets. -/
def bucketEqNum (_b : List JSVal) (_n : Nat) : Bool := false

/-- unapplyIndices(num) (store.js:810-818): for every indexed field, search
the bucket list for an element === num and splice it out when found.  The
elements are buckets (arrays), so the search never succeeds. -/
def unapplyIndicesT (num : Nat) (idx : IndexT) : IndexT :=
  (idx : List (String × List (List JSVal))).map (fun fb =>
    match fb.2.findIdx? (fun b => bucketEqNum b num) with
    | some i => (fb.1, fb.2.eraseIdx i)
    | none => fb)

/-- String conversion of a JS value, as performed by toString / string
concatenation on the primitives the model covers. -/
def jsValToString : JSVal → String
  | .num n => toString n
  | .str s => s
  | .bool b => if b then "true" else "false"

/-- JS truthiness test (falsy: 0, empty string, false). -/
def jsFalsy : JSVal → Bool
  | .num n => decide (n = 0)
  | .str s => decide (s = "")
  | .bool b => !b

/-- String.prototype.trim, modelled directly on the character list so that
it evaluates inside the kernel: drop whitespace from both ends. -/
def jsTrim (s : String) : String :=
  String.mk (((s.data.dropWhile Char.isWhitespace).reverse.dropWhile
    Char.isWhitespace).reverse)

/-- ASCII lowercasing of one character (the model only ever lowercases the
sort-direction strings, which are ASCII). -/
def charLower (c : Char) : Char :=
  if c.isUpper then c.toLower else c

/-- String.prototype.toLowerCase restricted to ASCII input. -/
def jsToLower (s : String) : String :=
  String.mk (s.data.map charLower)

/-- Stable insertion of one element for the model sort: x goes before the
first y it does not compare after.  Stability matches the guarantee of
Array.prototype.sort. -/
def insertBy (le : α → α → Bool) (x : α) : List α → List α
  | [] => [x]
  | y :: ys => if le x y then x :: y :: ys else y :: insertBy le x ys

/-- A stable comparison sort.  Array.prototype.sort is stable, so for a
consistent comparator its output is exactly the stable-sorted sequence;
any stable sorting algorithm is a faithful model of it. -/
def stableSortBy (le : α → α → Bool) : List α → List α
  | [] => []
  | x :: xs => insertBy le x (stableSortBy le xs)

/-- Lexicographic order on character lists, for the default (comparator
free) Array.prototype.sort, which compares string conversions. -/
def lexLe : List Char → List Char → Bool
  | [], _ => true
  | _ :: _, [] => false
  | a :: as, b :: bs =>
    if a = b then lexLe as bs else decide (a < b)

/-- Default JS array sort of bucket contents (array.sort() with no
comparator sorts by string conversion), used inside updateIndice
(store.js:851). -/
def jsDefaultSort (l : List JSVal) : List JSVal :=
  stableSortBy (fun a b => lexLe (jsValToString a).data (jsValToString b).data) l

/-- array.splice(i, 1) where i comes from indexOf and may be -1: a negative
start counts from the end, so splice(-1, 1) removes the last element. -/
def jsEraseAt (l : List α) (i : Option Nat) : List α :=
  match i with
  | some k => l.eraseIdx k
  | none => l.dropLast

/-- The bucket loop of updateIndice (store.js:837-858), with its running
counter ct and its early exit once ct reaches 2.  oldV and newV are the old
and new field values (none models undefined). -/
def updateIndiceLoop (oldV newV : Option JSVal) (num : Nat) :
    List (List JSVal) → Nat → List (List JSVal)
  | [], _ => []
  | b :: rest, ct =>
    if ct = 2 then b :: rest
    else
      if b.head? = oldV then
        jsEraseAt b (b.findIdx? (fun x => decide (x = JSVal.num num))) ::
          updateIndiceLoop oldV newV num rest (ct + 1)
      else if newV = none then
        b :: updateIndiceLoop oldV newV num rest (ct + 1)
      else if b.head? = newV then
        (match b with
          | [] => []
          | v :: ps => v :: jsDefaultSort (ps ++ [JSVal.num num])) ::
          updateIndiceLoop oldV newV num rest (ct + 1)
      else b :: updateIndiceLoop oldV newV num rest ct

/-- updateIndice(field, oldValue, newValue, num) (store.js:833-859):
no-op when the field is not indexed or the value did not change, otherwise
run the counting bucket loop on that field. -/
def updateIndiceT (f : String) (oldV newV : Option JSVal) (num : Nat)
    (idx : IndexT) : IndexT :=
  if (lookupField idx f).isNone ∨ oldV = newV then idx
  else
    (idx : List (String × List (List JSVal))).map (fun fb =>
      if fb.1 = f then (fb.1, updateIndiceLoop oldV newV num fb.2 0) else fb)

/-- getIndices(field, value) (store.js:872-884): null when the field is not
indexed; otherwise filter the buckets whose first element is the value, and
when exactly one matches return its positions (the source also
destructively shifts the value off that stored bucket; only the returned
value is modelled, and no claim inspects the index table after a lookup).
With zero or several matching buckets the result is an empty array. -/
def getIndicesT (idx : IndexT) (f : String) (v : JSVal) : Option (List JSVal) :=
  match lookupField idx f with
  | none => none
  | some buckets =>
    match buckets.filter (fun b => decide (b.length > 0) && decide (b.head? = some v)) with
    | [b] => some (b.drop 1)
    | _ => some []

/-- clearIndices (store.js:750-755): reset every bucket list, keeping the
indexed field names. -/
def clearIdx (idx : IndexT) : IndexT :=
  (idx : List (String × List (List JSVal))).map (fun fb => (fb.1, ([] : List (List JSVal))))

/-- The forEach loop of reindex (store.js:895-897): apply every record at
its position, in order. -/
def reindexFold (idx : IndexT) : List Record → Nat → IndexT
  | [], _ => idx
  | r :: rest, start => reindexFold (applyIndicesT r start idx) rest (start + 1)

/-- The store state.  Filters are function objects in the source; they are
modelled as numeric identities (reference equality of distinct function
objects is equality of identities), with the predicate bodies supplied
separately by an environment where behaviour matters. -/
structure Store where
  _data : List Record
  _index : List (String × List (List JSVal))
  _filters : List Nat
  _created : List Record
  _deleted : List Record
  _loading : Bool
  allowDuplicates : Bool
  errorOnDuplicate : Bool
deriving DecidableEq

/-- Decidable equality of fallible results, for evaluating the operations
on concrete inputs. -/
instance {ε α : Type} [DecidableEq ε] [DecidableEq α] : DecidableEq (Except ε α) :=
  fun x y =>
    match x, y with
    | .ok a, .ok b =>
      if h : a = b then .isTrue (h ▸ rfl)
      else .isFalse (fun hh => h (Except.ok.inj hh))
    | .error a, .error b =>
      if h : a = b then .isTrue (h ▸ rfl)
      else .isFalse (fun hh => h (Except.error.inj hh))
    | .ok _, .error _ => .isFalse (fun hh => Except.noConfusion hh)
    | .error _, .ok _ => .isFalse (fun hh => Except.noConfusion hh)

/-- The constructor (store.js:15-88) with the config already resolved: no
data, empty buckets for each configured index field, no filters, empty
change tracking, not loading. -/
def mkStore (indexFields : List String) (allowDup errOnDup : Bool) : Store :=
  { _data := []
    _index := indexFields.map (fun f => (f, ([] : List (List JSVal))))
    _filters := []
    _created := []
    _deleted := []
    _loading := false
    allowDuplicates := allowDup
    errorOnDuplicate := errOnDup }

/-- getIndices on a store. -/
def getIndices (s : Store) (f : String) (v : JSVal) : Option (List JSVal) :=
  getIndicesT s._index f v

/-- reindex (store.js:892-898): clear all buckets, then apply every record
at its current position. -/
def reindex (s : Store) : Store :=
  { s with _index := reindexFold (clearIdx s._index) s._data 0 }

/-- isDuplicate (store.js:179-186): a record already a member (by
reference) is not a duplicate; otherwise any checksum match is. -/
def isDuplicate (s : Store) (r : Record) : Bool :=
  if r ∈ s._data then false
  else s._data.any (fun rec => decide (rec.checksum = r.checksum))

/-- add(record) (store.js:133-167) for an input that is already a record:
duplicate policy check, then index application at position _data.length,
then append, then created-tracking outside bulk mode.  The thrown
duplicate error is the error branch. -/
def add (s : Store) (r : Record) : Except String Store :=
  if isDuplicate s r ∧ ¬s.allowDuplicates then
    if s.errorOnDuplicate then
      .error "Cannot add duplicate record (allowDuplicates = false)."
    else .ok s
  else
    let s1 := { s with _index := applyIndicesT r s._data.length s._index }
    let s2 := { s1 with _data := s1._data ++ [r] }
    .ok (if ¬s2._loading ∧ r ∉ s2._created
         then { s2 with _created := s2._created ++ [r] } else s2)

/-- remove(num) (store.js:296-332) for a numeric argument: negative
positions throw; otherwise splice one element out of _data (a position at
or beyond the length removes nothing), and when something was removed run
unapplyIndices and the created/deleted bookkeeping. -/
def removeAt (s : Store) (num : Int) : Except String Store :=
  if num < 0 then
    .error ("Record removal failed (record not found at index " ++ toString num ++ ").")
  else
    let k := num.toNat
    let removed := (s._data.drop k).take 1
    let data1 := s._data.take k ++ s._data.drop (k + 1)
    match removed with
    | [] => .ok { s with _data := data1 }
    | rec :: _ =>
      let s1 := { s with _data := data1 }
      let s2 := { s1 with _index := unapplyIndicesT k s1._index }
      let s3 :=
        if ¬s2._loading then
          match s2._created.findIdx? (fun x => decide (x = rec)) with
          | some i => { s2 with _created := s2._created.eraseIdx i }
          | none =>
            if rec ∈ s2._deleted then s2
            else { s2 with _deleted := s2._deleted ++ [rec] }
        else s2
      .ok s3

/-- A caller mutating the field of the record stored at position p.  The
record fires field.update / field.delete, and the listener installed by
listen (store.js:198-208) calls updateIndice with the position obtained
from _data.indexOf(record); reference lookup is modelled as the first
structural occurrence of the unmutated record (they agree when stored
records are pairwise distinct, and every theorem below reindexes before
reading the index table, making the choice immaterial). -/
def mutateField (s : Store) (p : Nat) (f : String) (newV : Option JSVal) : Store :=
  match s._data.get? p with
  | none => s
  | some r =>
    let oldV := r.get f
    let pos := (s._data.findIdx? (fun x => decide (x = r))).getD 0
    let s1 := { s with _index := updateIndiceT f oldV newV pos s._index }
    { s1 with _data := s1._data.set p (r.setField f newV) }

/-- One store operation of the kind quantified over by the index claim. -/
inductive Op where
  | add (r : Record)
  | remove (n : Int)
  | mutate (p : Nat) (f : String) (v : Option JSVal)

/-- Run one operation; a thrown error leaves the state unchanged in the
caller (the throwing paths mutate nothing before throwing). -/
def runOp (s : Store) : Op → Store
  | .add r =>
    match add s r with
    | .ok s1 => s1
    | .error _ => s
  | .remove n =>
    match removeAt s n with
    | .ok s1 => s1
    | .error _ => s
  | .mutate p f v => mutateField s p f v

/-- Run a sequence of operations left to right. -/
def runOps (s : Store) (ops : List Op) : Store :=
  ops.foldl runOp s

/-- applyFilters(data) (store.js:495-503): return the data untouched when
no filter is registered, otherwise thread it through every filter in
registration order.  fenv supplies the predicate body of each filter
identity. -/
def applyFilters (fenv : Nat → Record → Bool) (s : Store) (data : List Record) :
    List Record :=
  if s._filters = [] then data
  else s._filters.foldl (fun d fl => d.filter (fenv fl)) data

/-- The records getter (store.js:108-110): the filter-applied view.
When no filter is registered the source returns the _data array itself
(the same object), which is why sort can mutate it in place. -/
def recordsView (fenv : Nat → Record → Bool) (s : Store) : List Record :=
  applyFilters fenv s s._data

/-- addFilter(fn) (store.js:517-520). -/
def addFilter (s : Store) (fl : Nat) : Store :=
  { s with _filters := s._filters ++ [fl] }

/-- JS indexOf result: the index of the first match or -1. -/
def jsIndexOf (l : List Nat) (x : Nat) : Int :=
  match l.findIdx? (fun y => decide (y = x)) with
  | some i => (i : Int)
  | none => -1

/-- splice(start, 1) with a JS start that may be negative: clamp to
max(length + start, 0) from below and to the length from above, then
remove one element there.  Returns the removed elements and the remainder. -/
def jsSplice1 (l : List α) (start : Int) : List α × List α :=
  let k : Nat := if start < 0 then l.length - (-start).toNat else min start.toNat l.length
  ((l.drop k).take 1, l.take k ++ l.drop (k + 1))

/-- removeFilter(fn) (store.js:533-542) for a function argument: splice at
indexOf(fn), which is -1 when the function was never registered, so the
splice removes the last filter.  The second component is the filter handed
to the filter.delete emission, none when no event fired. -/
def removeFilter (s : Store) (fl : Nat) (suppressEvents : Bool) :
    Store × Option Nat :=
  let sp := jsSplice1 s._filters (jsIndexOf s._filters fl)
  ({ s with _filters := sp.2 },
   if sp.1 ≠ [] ∧ ¬suppressEvents then sp.1.head? else none)

/-- indexOf(record) (store.js:265-272): first position whose checksum
matches. -/
def indexOfRec (s : Store) (r : Record) : Int :=
  match s._data.findIdx? (fun el => decide (el.checksum = r.checksum)) with
  | some i => (i : Int)
  | none => -1

/-- contains(record) (store.js:282-284). -/
def containsRec (s : Store) (r : Record) : Bool :=
  decide (0 ≤ indexOfRec s r)

/-- The query argument of find (store.js:400-486), as a tagged union:
a position number, an identity string, a predicate function, a record, a
field-to-value map (JS object keys are unique, so the key list is assumed
duplicate free), or an absent query. -/
inductive Query where
  | num (n : Int)
  | str (s : String)
  | pred (p : Record → Bool)
  | record (r : Record)
  | map (kvs : List (String × JSVal))
  | absent

/-- The return value of find: a single record, an array of records, or
null. -/
inductive FindResult where
  | one (r : Record)
  | list (l : List Record)
  | null
deriving DecidableEq

/-- query[k] for a field-to-value map. -/
def qget (kvs : List (String × JSVal)) (k : String) : Option JSVal :=
  (kvs.find? (fun kv => decide (kv.1 = k))).map (fun kv => kv.2)

/-- me._data[index] for a position taken from an index bucket.  The source
reads the array directly; a non-numeric or out-of-range entry would make
the subsequent property accesses fault in JS, so the model drops such
entries, and every theorem taking this path assumes a sound index table,
under which the two agree. -/
def toRecordAt (data : List Record) (x : JSVal) : Option Record :=
  match x with
  | .num p => data.get? p
  | _ => none

/-- The keys.forEach pass of the object query (store.js:437-444): collect
indexed candidate positions in key order and the non-indexed key names in
key order. -/
def collectMatches (s : Store) : List (String × JSVal) → List JSVal × List String
  | [] => ([], [])
  | kv :: rest =>
    let acc := collectMatches s rest
    match getIndices s kv.1 kv.2 with
    | some l => (l ++ acc.1, acc.2)
    | none => (acc.1, kv.1 :: acc.2)

/-- The final exact-match pass of the object query (store.js:469-476):
keep a record only when it matches every query key. -/
def matchesAllKeys (kvs : List (String × JSVal)) (r : Record) : Bool :=
  kvs.all (fun kv => decide (r.get kv.1 = some kv.2))

/-- The object-query branch of find (store.js:426-477).  Note store.js:447:
the deduplicated copy of the candidate list is computed and then discarded
(the filter result is not assigned), so duplicate positions survive into
the result. -/
def findMapCase (s : Store) (kvs : List (String × JSVal)) : List Record :=
  let acc := collectMatches s kvs
  let mtch := acc.1
  let noindex := acc.2
  let res0 : List Record :=
    if noindex.length > 0 then
      ((s._data.enum).filter (fun ir =>
        (!(decide (JSVal.num ir.1 ∈ mtch))) &&
        noindex.all (fun k => decide (ir.2.get k = qget kvs k)))).map (fun ir => ir.2)
    else []
  (res0 ++ mtch.filterMap (toRecordAt s._data)).filter (matchesAllKeys kvs)

/-- The linear-scan predicate of the string query (store.js:421-423):
stringify the identity field with falsy values collapsing to the empty
string, trim, and compare with the trimmed query. -/
def idMatches (rec : Record) (q : String) : Bool :=
  decide (jsTrim (match rec.get rec.idAttribute with
                  | none => ""
                  | some v => if jsFalsy v then "" else jsValToString v) = jsTrim q)

/-- find(query, ignoreFilters) (store.js:400-486).  An empty store returns
an empty array for every query shape (the guard at store.js:401-403).
At store.js:484 the source computes the filtered view of the result and
discards it (the applyFilters return value is never assigned), so the
returned result is unfiltered regardless of ignoreFilters. -/
def find (fenv : Nat → Record → Bool) (s : Store) (q : Query)
    (ignoreFilters : Bool) : FindResult :=
  if s._data.isEmpty then .list []
  else
    let res : FindResult :=
      match q with
      | .pred p => .list (s._data.filter p)
      | .num n =>
        if n < 0 ∨ (s._data.length : Int) ≤ n then .null
        else
          match s._data.get? n.toNat with
          | some r => .one r
          | none => .null
      | .str qs =>
        match s._data with
        | [] => .list []
        | r0 :: _ =>
          match getIndices s r0.idAttribute (.str (jsTrim qs)) with
          | some (x :: xs) => .list ((x :: xs).filterMap (toRecordAt s._data))
          | _ =>
            match s._data.filter (fun rec => idMatches rec qs) with
            | [] => .null
            | r :: _ => .one r
      | .record r => if containsRec s r then .one r else .null
      | .map kvs => .list (findMapCase s kvs)
      | .absent => .list s._data
    match res with
    | .null => .null
    | other =>
      let _discarded :=
        if ignoreFilters then []
        else applyFilters fenv s
          (match other with
           | .list l => l
           | .one r => [r]
           | .null => [])
      other

/-- Strict lexicographic order on character lists. -/
def lexLt : List Char → List Char → Bool
  | [], [] => false
  | [], _ :: _ => true
  | _ :: _, [] => false
  | a :: as, b :: bs => if a = b then lexLt as bs else decide (a < b)

/-- The JS greater-than relation on the values the model covers: numbers
numerically, strings lexicographically, booleans through their numeric
coercion.  A string compared with a number or boolean is coerced to a
number in JS and compares false when non-numeric; the development never
compares across those types, and the model returns false there. -/
def jsGtV : JSVal → JSVal → Bool
  | .num a, .num b => decide (b < a)
  | .str a, .str b => lexLt b.data a.data
  | .bool a, .bool b => a && !b
  | .num a, .bool b => decide ((if b then 1 else 0) < a)
  | .bool a, .num b => decide (b < (if a then 1 else 0))
  | _, _ => false

/-- a[k] > b[k] where a property access may be undefined: any comparison
with undefined is false in JS. -/
def jsGtOpt : Option JSVal → Option JSVal → Bool
  | some x, some y => jsGtV x y
  | _, _ => false

/-- a[k] < b[k]; for same-type primitives x < y coincides with y > x. -/
def jsLtOpt (a b : Option JSVal) : Bool :=
  jsGtOpt b a

/-- One sort key direction: a direction string (matched against asc and
desc after trim and lowercase; a function source text never matches
those), or a custom comparator. -/
inductive SortDir where
  | dir (s : String)
  | custom (f : Record → Record → Int)

/-- The composite comparator built by sort for an object argument
(store.js:677-703): walk the keys in order; a record owning the key while
the other lacks it makes the owner sort after (return 1 when the first
argument owns it); differing values dispatch on the direction, with a
custom comparator delegated to and unknown direction strings comparing
equal; equal values fall through to the next key. -/
def mapCompare (ks : List (String × SortDir)) (a b : Record) : Int :=
  match ks with
  | [] => 0
  | (k, d) :: rest =>
    if (a.hasField k) ∧ ¬(b.hasField k) then 1
    else if ¬(a.hasField k) ∧ (b.hasField k) then -1
    else if a.get k ≠ b.get k then
      match d with
      | .dir ds =>
        match jsToLower (jsTrim ds) with
        | "asc" => if jsGtOpt (a.get k) (b.get k) then 1 else -1
        | "desc" => if jsLtOpt (a.get k) (b.get k) then 1 else -1
        | _ => 0
      | .custom f => f a b
    else mapCompare rest a b

/-- The sorter argument of sort: a plain comparator or a field map. -/
inductive Sorter where
  | fn (cmp : Record → Record → Int)
  | byFields (ks : List (String × SortDir))

/-- sort(fn) (store.js:672-706).  this.records is applyFilters(this._data),
which is the _data array itself when no filter is registered and a freshly
built array otherwise (store.js:495-503); Array.prototype.sort mutates its
receiver in place, so the stored sequence is reordered exactly when the
filter list is empty, and the sorted copy is discarded otherwise.  In both
cases reindex runs afterwards. -/
def sortStore (s : Store) (srt : Sorter) : Store :=
  let cmp : Record → Record → Int :=
    match srt with
    | .fn c => c
    | .byFields ks => mapCompare ks
  let data1 :=
    if s._filters = [] then stableSortBy (fun a b => decide (cmp a b ≤ 0)) s._data
    else s._data
  reindex { s with _data := data1 }

/-- The per-field residue of the reindex loop: fold the record list through
the bucket-scan of applyIndices for one fixed field, starting at a given
position. -/
def bucketsFold (f : String) (bs : List (List JSVal)) :
    List Record → Nat → List (List JSVal)
  | [], _ => bs
  | r :: rest, start =>
    bucketsFold f
      (match r.get f with
       | some v => bucketsApply v start bs
       | none => bs) rest (start + 1)

/-- Well-formedness of one bucket list for field f over the first n records
of data: buckets are nonempty, bucket values are pairwise distinct, and a
position sits behind value v exactly when the record at that position
(among the first n) currently holds v for f. -/
def GoodBuckets (data : List Record) (f : String) (n : Nat)
    (bs : List (List JSVal)) : Prop :=
  (∀ b ∈ bs, b ≠ []) ∧
  (bs.map List.head?).Nodup ∧
  (∀ v x, (∃ b ∈ bs, b.head? = some v ∧ x ∈ b.drop 1) ↔
    (∃ p r, x = JSVal.num p ∧ p < n ∧ data.get? p = some r ∧ r.get f = some v))

/-- Soundness of the index table of a store: every position recorded under
a bucket value really is the position of a record currently holding that
value for the indexed field.  This is the precondition under which the
direct array reads of find (me._data[index]) cannot fault. -/
def IndexSound (s : Store) : Prop :=
  ∀ fb ∈ s._index, ∀ b ∈ fb.2, ∀ v, b.head? = some v →
    ∀ x ∈ b.drop 1, ∃ p r, x = JSVal.num p ∧ s._data.get? p = some r ∧
      r.get fb.1 = some v

/-- A concrete record with two fields, used by several evaluations. -/
def cRecA : Record :=
  { fields := [("a", .num 1), ("b", .num 2)], idAttribute := "id", checksum := 0 }

/-- A concrete record owning the sort key k. -/
def cRecHasK : Record :=
  { fields := [("k", .num 1)], idAttribute := "id", checksum := 1 }

/-- A concrete record lacking the sort key k. -/
def cRecNoK : Record :=
  { fields := [], idAttribute := "id", checksum := 2 }

/-- A store holding cRecA with one registered filter (identity 0). -/
def cStoreFiltered : Store :=
  addFilter (runOp (mkStore [] true true) (.add cRecA)) 0

/-- A store holding cRecA with indexes on both of its fields, built by an
add operation. -/
def cStoreTwoIdx : Store :=
  runOps (mkStore ["a", "b"] true true) [.add cRecA]

/-- A store holding cRecA and nothing else, no indexes, no filters. -/
def cStoreOne : Store :=
  runOp (mkStore [] true true) (.add cRecA)

/-- A store holding cRecHasK then cRecNoK, no filters. -/
def cStoreSort : Store :=
  { mkStore [] true true with _data := [cRecHasK, cRecNoK] }

/-- A one-field index table whose single bucket holds position 0. -/
def cIdxOne : IndexT :=
  [("f", [[JSVal.str "v", JSVal.num 0]])]


/-! Helper lemmas shared across several claims. -/

theorem findIdx_append_singleton {α : Type} [DecidableEq α]
    (l : List α) (r : α) (h : r ∉ l) :
    (l ++ [r]).findIdx? (fun x => decide (x = r)) = some l.length := by
  induction l with
  | nil => simp [List.findIdx?_cons]
  | cons a t ih =>
    have ha : a ≠ r := fun hh => h (hh ▸ List.mem_cons_self a t)
    have ht : r ∉ t := fun hh => h (List.mem_cons_of_mem a hh)
    simp only [List.cons_append, List.findIdx?_cons, decide_eq_true_eq]
    rw [if_neg ha, List.findIdx?_succ, ih ht]
    rfl

theorem eraseIdx_append_singleton {α : Type} (l : List α) (r : α) :
    (l ++ [r]).eraseIdx l.length = l := by
  induction l with
  | nil => rfl
  | cons a t ih => simpa [List.eraseIdx] using ih

/-! C10 — sort never reorders the stored sequence while a filter is
registered, because this.records is then a fresh array. -/

/-- C10: for every store with at least one registered filter, sort (with a
comparator function or a field map alike) leaves the underlying unfiltered
record sequence exactly as it was; only the reindex side effect happens. -/
theorem c10_sort_keeps_data_when_filtered (s : Store) (srt : Sorter)
    (h : s._filters ≠ []) :
    (sortStore s srt)._data = s._data := by
  simp only [sortStore, reindex]
  rw [if_neg h]

/-- C10 witness: a concrete store with one filter keeps its record order
through a sort that would otherwise swap the two records. -/
theorem c10_witness :
    (sortStore { cStoreSort with _filters := [0] }
      (.byFields [("k", SortDir.dir "asc")]))._data = [cRecHasK, cRecNoK] := by
  rw [c10_sort_keeps_data_when_filtered { cStoreSort with _filters := [0] }
    (.byFields [("k", SortDir.dir "asc")]) (by decide)]
  decide

/-! C9 — removeFilter with an unregistered function splices at index -1,
which removes the most recently added filter and fires filter.delete. -/

/-- C9: on a store with a nonempty filter list, removeFilter applied to a
function that was never registered removes the last filter and hands it to
the filter.delete emission. -/
theorem c9_removeFilter_unregistered (s : Store) (fl : Nat)
    (h1 : s._filters ≠ []) (h2 : fl ∉ s._filters) :
    (removeFilter s fl false).1._filters = s._filters.dropLast ∧
    (removeFilter s fl false).2 = s._filters.getLast? := by
  rcases List.eq_nil_or_concat s._filters with hnil | ⟨t, a, hconcat⟩
  · exact absurd hnil h1
  · have hidx : jsIndexOf s._filters fl = -1 := by
      unfold jsIndexOf
      have hnone : s._filters.findIdx? (fun y => decide (y = fl)) = none :=
        List.findIdx?_eq_none_iff.2 (fun x hx => by
          simp only [decide_eq_false_iff_not]
          exact fun hh => h2 (hh ▸ hx))
      rw [hnone]
    unfold removeFilter jsSplice1
    rw [hidx]
    simp only [List.concat_eq_append] at hconcat
    rw [hconcat]
    have hlen : (t ++ [a]).length = t.length + 1 := by simp
    have hk : (if (-1 : Int) < 0 then (t ++ [a]).length - ((-(-1 : Int)).toNat)
        else min (-1 : Int).toNat (t ++ [a]).length) = t.length := by
      rw [if_pos (by norm_num)]
      simp [hlen]
    rw [hk]
    refine ⟨?_, ?_⟩
    · simp [List.take_left, List.dropLast_concat,
        @List.drop_append _ t [a] 1]
    · simp [List.drop_left, List.getLast?_concat]

/-- C9 witness: removing an unknown function from a one-filter store
removes that filter and reports it. -/
theorem c9_witness :
    (removeFilter (addFilter (mkStore [] true true) 7) 3 false).1._filters = [] ∧
    (removeFilter (addFilter (mkStore [] true true) 7) 3 false).2 = some 7 := by
  have h := c9_removeFilter_unregistered (addFilter (mkStore [] true true) 7) 3
    (by decide) (by decide)
  exact ⟨by rw [h.1]; decide, by rw [h.2]; decide⟩

/-! C3 — remove by out-of-range position: negative positions throw, but a
position at or beyond the record count silently leaves the store as is. -/

/-- C3 counterexample: removing position 1 from a one-record store does not
raise; it returns with the store unchanged, against the claim that every
out-of-range position raises RecordNotFoundError. -/
theorem c3_counterexample : removeAt cStoreOne 1 = .ok cStoreOne := by decide

/-- C3 amended: remove with a negative position raises the record-not-found
error; remove with a position at or beyond the record count raises nothing
and leaves the whole store (records, created, deleted, indexes) unchanged.
In both cases there is no partial mutation. -/
theorem c3_out_of_range_remove (s : Store) (n : Int) :
    (n < 0 → removeAt s n =
      .error ("Record removal failed (record not found at index " ++
        toString n ++ ").")) ∧
    ((s._data.length : Int) ≤ n → removeAt s n = .ok s) := by
  constructor
  · intro hneg
    unfold removeAt
    rw [if_pos hneg]
  · intro hge
    have hnneg : ¬n < 0 := by
      have : (0 : Int) ≤ (s._data.length : Int) := by positivity
      omega
    have hlen : s._data.length ≤ n.toNat := by omega
    unfold removeAt
    rw [if_neg hnneg]
    have hdrop : s._data.drop n.toNat = [] := List.drop_eq_nil_of_le hlen
    have hdrop1 : s._data.drop (n.toNat + 1) = [] :=
      List.drop_eq_nil_of_le (by omega)
    have htake : s._data.take n.toNat = s._data := List.take_of_length_le hlen
    simp only [hdrop, hdrop1, htake, List.take_nil, List.append_nil]

/-- C3 witness: both branches evaluated on a concrete one-record store. -/
theorem c3_witness :
    removeAt cStoreOne (-2) =
      .error "Record removal failed (record not found at index -2)." ∧
    removeAt cStoreOne 5 = .ok cStoreOne := by
  have h := c3_out_of_range_remove cStoreOne
  refine ⟨?_, ?_⟩
  · rw [(h (-2)).1 (by norm_num)]
    decide
  · rw [(h 5).2 (by decide)]

/-! C4 — unapplyIndices is a no-op: indexOf compares the position number
against whole buckets (arrays), never against their contents. -/

/-- C4 evaluation at the failing input: position 0 is in the only bucket of
the only indexed field, yet unapplyIndices(0) removes nothing and the
bucket still contains position 0 afterwards. -/
theorem c4_unapply_is_noop :
    unapplyIndicesT 0 cIdxOne = cIdxOne ∧
    JSVal.num 0 ∈ [JSVal.str "v", JSVal.num 0] := by decide

/-! C2 — find never applies the registered filters: the applyFilters call
at store.js:484 computes a filtered copy and discards it. -/

/-- C2 evaluation at the failing input: the single stored record is
rejected by the only registered filter (its predicate is constantly
false), ignoreFilters is unset, and yet find returns that record. -/
theorem c2_find_returns_unfiltered :
    find (fun _ _ => false) cStoreFiltered .absent false = .list [cRecA] := by
  decide

/-! C5 — the merge step of the object query does not deduplicate: the
deduplicated copy computed at store.js:447 is discarded, so a record
matching several indexed keys of the query is returned once per key. -/

/-- C5 evaluation at the failing input: one record matching both indexed
keys of the query appears twice in the result. -/
theorem c5_duplicate_in_result :
    find (fun _ _ => true) cStoreTwoIdx
      (.map [("a", .num 1), ("b", .num 2)]) false = .list [cRecA, cRecA] := by
  decide

/-! C6 — the composite sort comparator: the missing-key direction is the
reverse of the claimed one; equal values fall through; custom comparators
are delegated to. -/

/-- C6 counterexample: the record owning the sort key compares after the
record missing it (the comparator returns 1), so sorting a two-record
store moves the record missing the key to the front, against the claim
that a record missing the key sorts after the one that has it. -/
theorem c6_counterexample :
    mapCompare [("k", SortDir.dir "asc")] cRecHasK cRecNoK = 1 ∧
    (sortStore cStoreSort (.byFields [("k", SortDir.dir "asc")]))._data =
      [cRecNoK, cRecHasK] := by decide

/-- Owning a field is having a present property value. -/
theorem hasField_eq_isSome (r : Record) (k : String) :
    r.hasField k = (r.get k).isSome := by
  simp [Record.hasField, Record.get]

/-- C6 amended: records are compared by the keys in map order; if one
record is missing a key that the other has, the record missing the key
sorts BEFORE the one that has it (the comparator returns 1 when its first
argument owns the key and the second does not); if both records have equal
values for a key, comparison falls through to the next key; if a
comparator function is supplied for a key, it is used for that key instead
of asc or desc whenever the values differ. -/
theorem c6_mapCompare_shape (k : String) (d : SortDir)
    (rest : List (String × SortDir)) (a b : Record) :
    (a.hasField k = true → b.hasField k = false →
      mapCompare ((k, d) :: rest) a b = 1) ∧
    (a.hasField k = false → b.hasField k = true →
      mapCompare ((k, d) :: rest) a b = -1) ∧
    (a.get k = b.get k →
      mapCompare ((k, d) :: rest) a b = mapCompare rest a b) ∧
    (∀ (f : Record → Record → Int) (x y : JSVal),
      a.get k = some x → b.get k = some y → x ≠ y →
      mapCompare ((k, SortDir.custom f) :: rest) a b = f a b) := by
  refine ⟨?_, ?_, ?_, ?_⟩
  · intro ha hb
    simp [mapCompare, ha, hb]
  · intro ha hb
    simp [mapCompare, ha, hb]
  · intro h
    simp only [mapCompare, hasField_eq_isSome, h]
    cases hbk : b.get k <;> simp [hbk]
  · intro f x y hx hy hxy
    simp [mapCompare, hasField_eq_isSome, hx, hy, hxy]

/-- C6 witness: the amended comparator shape evaluated on two concrete
records, one missing the key. -/
theorem c6_witness :
    mapCompare [("k", SortDir.dir "desc")] cRecNoK cRecHasK = -1 := by
  have h := c6_mapCompare_shape "k" (SortDir.dir "desc") [] cRecNoK cRecHasK
  exact h.2.1 (by decide) (by decide)

/-! C7 — add followed by remove of the same fresh record is net zero on
the change-tracking lists. -/

/-- C7: outside bulk mode, adding a fresh record and then removing it (by
its position, before any bulk-load boundary) leaves both the created and
the deleted list without that record. -/
theorem c7_add_remove_net_zero (s : Store) (r : Record)
    (hload : s._loading = false) (hdup : s.allowDuplicates = true)
    (hc : r ∉ s._created) (hd : r ∉ s._deleted) :
    ∃ s1 s2, add s r = .ok s1 ∧
      removeAt s1 (s._data.length : Int) = .ok s2 ∧
      r ∉ s2._created ∧ r ∉ s2._deleted := by
  refine ⟨{ s with _index := applyIndicesT r s._data.length s._index, _data := s._data ++ [r], _created := s._created ++ [r] }, { s with _index := unapplyIndicesT s._data.length (applyIndicesT r s._data.length s._index) }, ?_, ?_, ?_, ?_⟩
  · unfold add
    rw [if_neg (by simp [hdup])]
    dsimp only
    rw [if_pos ⟨by simp [hload], by simpa using hc⟩]
  · unfold removeAt
    rw [if_neg (by
      simp only [not_lt]
      exact Int.natCast_nonneg _)]
    simp only [Int.toNat_natCast]
    rw [List.drop_left]
    dsimp only [List.take]
    rw [List.take_left, List.drop_append 1]
    dsimp only [List.drop]
    rw [List.append_nil]
    rw [if_pos (by simp [hload])]
    rw [findIdx_append_singleton s._created r hc]
    dsimp only
    rw [eraseIdx_append_singleton]
  · exact hc
  · exact hd

/-- C7 witness: the net-zero property evaluated on an empty store and a
concrete record. -/
theorem c7_witness :
    ∃ s1 s2, add (mkStore [] true true) cRecA = .ok s1 ∧
      removeAt s1 ((mkStore [] true true)._data.length : Int) = .ok s2 ∧
      cRecA ∉ s2._created ∧ cRecA ∉ s2._deleted :=
  c7_add_remove_net_zero (mkStore [] true true) cRecA (by decide) (by decide)
    (by decide) (by decide)

/-! Trim facts needed for the identity-string query: trimming is
idempotent. -/

theorem dropWhile_self_of_head {α : Type} (p : α → Bool) (l : List α)
    (h : ∀ a, l.head? = some a → p a = false) : l.dropWhile p = l := by
  cases l with
  | nil => rfl
  | cons a t => simp [List.dropWhile_cons, h a rfl]

theorem head_dropWhile_false {α : Type} (p : α → Bool) (l : List α) :
    ∀ a, (l.dropWhile p).head? = some a → p a = false := by
  induction l with
  | nil => intro a ha; cases ha
  | cons x t ih =>
    intro a ha
    by_cases hx : p x = true
    · exact ih a (by simpa [List.dropWhile_cons, hx] using ha)
    · have hx2 : p x = false := by simpa using hx
      rw [List.dropWhile_cons, if_neg (by simp [hx2])] at ha
      cases ha
      exact hx2

theorem dropWhile_idem {α : Type} (p : α → Bool) (l : List α) :
    (l.dropWhile p).dropWhile p = l.dropWhile p :=
  dropWhile_self_of_head p _ (head_dropWhile_false p l)

theorem getLast_dropWhile {α : Type} (p : α → Bool) (l : List α)
    (h : l.dropWhile p ≠ []) : (l.dropWhile p).getLast? = l.getLast? := by
  induction l with
  | nil => exact absurd rfl h
  | cons x t ih =>
    by_cases hx : p x = true
    · rw [List.dropWhile_cons, if_pos hx] at h ⊢
      rw [ih h]
      cases t with
      | nil => exact absurd rfl h
      | cons b bs => rw [List.getLast?_cons_cons]
    · rw [List.dropWhile_cons, if_neg hx]

theorem jsTrim_idem (q : String) : jsTrim (jsTrim q) = jsTrim q := by
  unfold jsTrim
  cases hB : (q.data.dropWhile Char.isWhitespace).reverse.dropWhile
      Char.isWhitespace with
  | nil => rfl
  | cons c cs =>
    have hBne : (q.data.dropWhile Char.isWhitespace).reverse.dropWhile
        Char.isWhitespace ≠ [] := by
      rw [hB]; exact List.cons_ne_nil c cs
    have hdw1 : ((c :: cs).reverse).dropWhile Char.isWhitespace =
        (c :: cs).reverse := by
      apply dropWhile_self_of_head
      intro a ha
      rw [List.head?_reverse] at ha
      rw [← hB, getLast_dropWhile _ _ hBne, List.getLast?_reverse] at ha
      exact head_dropWhile_false _ _ a ha
    have hdw2 := dropWhile_idem Char.isWhitespace
      (q.data.dropWhile Char.isWhitespace).reverse
    rw [hB] at hdw2
    show String.mk ((((String.mk (c :: cs).reverse).data.dropWhile
        Char.isWhitespace).reverse.dropWhile Char.isWhitespace).reverse) =
      String.mk ((c :: cs).reverse)
    have hdata : (String.mk (c :: cs).reverse).data = (c :: cs).reverse := rfl
    rw [hdata, hdw1, List.reverse_reverse, hdw2]

/-! Candidate results of the object query are always stored records. -/

theorem mem_enum_filter_map {α : Type} (l : List α) (q : Nat × α → Bool)
    (x : α) (h : x ∈ ((l.enum.filter q).map (fun ir => ir.2))) : x ∈ l := by
  obtain ⟨ir, hir, rfl⟩ := List.mem_map.1 h
  have hmem := List.mem_of_mem_filter hir
  obtain ⟨i, a⟩ := ir
  obtain ⟨hi, ha⟩ := List.mem_enum hmem
  show a ∈ l
  rw [ha]
  exact List.getElem_mem hi

theorem mem_of_toRecordAt (data : List Record) (x : JSVal) (r : Record)
    (h : toRecordAt data x = some r) : r ∈ data := by
  cases x with
  | num p =>
    simp only [toRecordAt] at h
    rw [List.get?_eq_getElem?] at h
    obtain ⟨hlt, ha⟩ := List.getElem?_eq_some_iff.1 h
    exact ha ▸ List.getElem_mem hlt
  | str v => cases h
  | bool v => cases h

/-! C8 — find on no-match queries.  The claim fails on the empty store
(the guard at store.js:401-403 returns an empty array for every query
shape, including number and string queries); on nonempty stores it holds
as claimed. -/

/-- C8 counterexample: on the empty store a number query that matches
nothing returns an empty array, not null. -/
theorem c8_counterexample :
    find (fun _ _ => true) (mkStore [] true true) (.num 0) false = .list [] ∧
    (FindResult.list [] : FindResult) ≠ FindResult.null := by decide

/-- C8 amended: on a nonempty store, find returns null when a number
position is out of range, null when an identity string matches no record
(granted a sound index table and a uniform identity attribute), and an
empty sequence when a predicate query or a field-to-value map query
matches no record; on the empty store find returns an empty sequence for
every query shape. -/
theorem c8_no_match_results (fenv : Nat → Record → Bool) (s : Store) :
    (s._data = [] → ∀ (q : Query) (ig : Bool), find fenv s q ig = .list []) ∧
    (s._data ≠ [] →
      (∀ (n : Int) (ig : Bool), (n < 0 ∨ (s._data.length : Int) ≤ n) →
        find fenv s (.num n) ig = .null) ∧
      (∀ (p : Record → Bool) (ig : Bool), (∀ r ∈ s._data, p r = false) →
        find fenv s (.pred p) ig = .list []) ∧
      (∀ (kvs : List (String × JSVal)) (ig : Bool), IndexSound s →
        (∀ r ∈ s._data, matchesAllKeys kvs r = false) →
        find fenv s (.map kvs) ig = .list []) ∧
      (∀ (qs : String) (ig : Bool), IndexSound s →
        (∀ r1 ∈ s._data, ∀ r2 ∈ s._data, r1.idAttribute = r2.idAttribute) →
        (∀ r ∈ s._data, idMatches r qs = false) →
        find fenv s (.str qs) ig = .null)) := by
  constructor
  · intro hdata q ig
    simp [find, hdata]
  · intro hne
    have hempty : ¬s._data.isEmpty = true := by
      simp [List.isEmpty_iff, hne]
    refine ⟨?_, ?_, ?_, ?_⟩
    · intro n ig hcond
      unfold find
      rw [if_neg hempty]
      dsimp only
      rw [if_pos hcond]
    · intro p ig hp
      have hfil : s._data.filter p = [] :=
        List.filter_eq_nil_iff.2 (fun a ha => by simp [hp a ha])
      unfold find
      rw [if_neg hempty]
      dsimp only
      rw [hfil]
    · intro kvs ig _hsound hnm
      have hfmc : findMapCase s kvs = [] := by
        unfold findMapCase
        dsimp only
        apply List.filter_eq_nil_iff.2
        intro rec hrec
        have hrecmem : rec ∈ s._data := by
          rcases List.mem_append.1 hrec with hL | hR
          · by_cases hni : (collectMatches s kvs).2.length > 0
            · rw [if_pos hni] at hL
              exact mem_enum_filter_map _ _ _ hL
            · rw [if_neg hni] at hL
              cases hL
          · obtain ⟨x, _hx, hxr⟩ := List.mem_filterMap.1 hR
            exact mem_of_toRecordAt _ _ _ hxr
        simp [hnm rec hrecmem]
      unfold find
      rw [if_neg hempty]
      dsimp only
      rw [hfmc]
    · intro qs ig hsound hattr hnm
      obtain ⟨r0, rest, hdata⟩ := List.exists_cons_of_ne_nil hne
      have hr0mem : r0 ∈ s._data := by
        rw [hdata]; exact List.mem_cons_self r0 rest
      have hgi : getIndices s r0.idAttribute (JSVal.str (jsTrim qs)) = none ∨
          getIndices s r0.idAttribute (JSVal.str (jsTrim qs)) = some [] := by
        unfold getIndices getIndicesT
        cases hlf : lookupField s._index r0.idAttribute with
        | none => left; rfl
        | some buckets =>
          right
          dsimp only
          cases hflt : buckets.filter (fun b => decide (b.length > 0) &&
              decide (b.head? = some (JSVal.str (jsTrim qs)))) with
          | nil => rfl
          | cons b tail =>
            cases tail with
            | cons b2 t2 => rfl
            | nil =>
              have hbmem : b ∈ buckets.filter (fun b => decide (b.length > 0) &&
                  decide (b.head? = some (JSVal.str (jsTrim qs)))) := by
                rw [hflt]; exact List.mem_cons_self b []
              have hbbuck : b ∈ buckets := List.mem_of_mem_filter hbmem
              have hbpred := List.of_mem_filter hbmem
              have hbhead : b.head? = some (JSVal.str (jsTrim qs)) := by
                simp only [Bool.and_eq_true, decide_eq_true_eq] at hbpred
                exact hbpred.2
              dsimp only
              cases hdrop : b.drop 1 with
              | nil => rfl
              | cons x xs =>
                exfalso
                have hxmem : x ∈ b.drop 1 := by
                  rw [hdrop]; exact List.mem_cons_self x xs
                obtain ⟨fb, hfb, hfb2⟩ := Option.map_eq_some'.1 hlf
                have hfbmem : fb ∈ s._index := List.mem_of_find?_eq_some hfb
                have hfb1 : fb.1 = r0.idAttribute := by
                  have := List.find?_some hfb
                  simpa using this
                obtain ⟨p2, r2, _hx2, hget, hval⟩ :=
                  hsound fb hfbmem b (by rw [hfb2]; exact hbbuck) _ hbhead x hxmem
                have hr2mem : r2 ∈ s._data := by
                  rw [List.get?_eq_getElem?] at hget
                  obtain ⟨hlt, ha⟩ := List.getElem?_eq_some_iff.1 hget
                  rw [← ha]
                  exact List.getElem_mem hlt
                have hval2 : r2.get r2.idAttribute =
                    some (JSVal.str (jsTrim qs)) := by
                  rw [hattr r2 hr2mem r0 hr0mem, ← hfb1]
                  exact hval
                have hmatch : idMatches r2 qs = true := by
                  unfold idMatches
                  rw [hval2]
                  by_cases hqt : jsTrim qs = ""
                  · have h0 : jsTrim "" = "" := rfl
                    simp [jsFalsy, hqt, h0]
                  · simp [jsFalsy, hqt, jsValToString, jsTrim_idem qs]
                rw [hnm r2 hr2mem] at hmatch
                cases hmatch
      have hfil : ∀ t : List Record, (∀ a ∈ t, a ∈ s._data) →
          t.filter (fun rec => idMatches rec qs) = [] := by
        intro t ht
        exact List.filter_eq_nil_iff.2 (fun a ha => by simp [hnm a (ht a ha)])
      have hfil2 : (r0 :: rest).filter (fun rec => idMatches rec qs) = [] := by
        apply hfil
        intro a ha
        rw [hdata]
        exact ha
      unfold find
      rw [if_neg hempty]
      dsimp only
      rw [hdata]
      dsimp only
      rcases hgi with hgi | hgi
      · rw [hgi]
        dsimp only
        rw [hfil2]
      · rw [hgi]
        dsimp only
        rw [hfil2]

/-- C8 witness: the amended behaviour on a concrete one-record store for
an out-of-range number query and a no-match identity string. -/
theorem c8_witness :
    find (fun _ _ => true) cStoreOne (.num 5) false = .null ∧
    find (fun _ _ => true) cStoreOne (.str "nope") false = .null := by
  have h := (c8_no_match_results (fun _ _ => true) cStoreOne).2 (by decide)
  constructor
  · exact h.1 5 false (by decide)
  · have hidx : cStoreOne._index = [] := by decide
    have hd : cStoreOne._data = [cRecA] := by decide
    refine h.2.2.2 "nope" false ?_ ?_ ?_
    · intro fb hfb
      rw [hidx] at hfb
      cases hfb
    · intro r1 h1 r2 h2
      rw [hd] at h1 h2
      have e1 : r1 = cRecA := by simpa using h1
      have e2 : r2 = cRecA := by simpa using h2
      rw [e1, e2]
    · intro r hr
      rw [hd] at hr
      have e1 : r = cRecA := by simpa using hr
      rw [e1]
      decide

/-! C1 machinery, part one: the reindex loop commutes with looking up one
field, and store operations never change the set of indexed field names. -/

theorem find?_map_fst {β : Type} (g : (String × β) → (String × β))
    (hg : ∀ x, (g x).1 = x.1) (l : List (String × β)) (f : String) :
    (l.map g).find? (fun fb => decide (fb.1 = f)) =
      (l.find? (fun fb => decide (fb.1 = f))).map g := by
  induction l with
  | nil => rfl
  | cons x t ih =>
    simp only [List.map_cons, List.find?_cons]
    by_cases hf : x.1 = f
    · rw [hg x]
      simp [hf]
    · rw [hg x]
      simp [hf, ih]

theorem lookupField_applyIndicesT (r : Record) (n : Nat) (idx : IndexT)
    (f : String) :
    lookupField (applyIndicesT r n idx) f =
      (lookupField idx f).map (fun bs =>
        match r.get f with
        | some v => bucketsApply v n bs
        | none => bs) := by
  have hg : ∀ x : String × List (List JSVal),
      ((fun (fb : String × List (List JSVal)) => match r.get fb.1 with
        | none => fb
        | some v => (fb.1, bucketsApply v n fb.2)) x).1 = x.1 := by
    intro x
    show (match r.get x.1 with
          | none => x
          | some v => (x.1, bucketsApply v n x.2)).1 = x.1
    cases (r.get x.1) <;> rfl
  unfold lookupField applyIndicesT
  rw [find?_map_fst _ hg]
  cases hfind : idx.find? (fun fb => decide (fb.1 = f)) with
  | none => rfl
  | some fb =>
    have hfb1 : fb.1 = f := by simpa using List.find?_some hfind
    dsimp only [Option.map]
    show some ((match r.get fb.1 with
        | none => fb
        | some v => (fb.1, bucketsApply v n fb.2)).2) =
      some (match r.get f with
        | some v => bucketsApply v n fb.2
        | none => fb.2)
    rw [hfb1]
    cases (r.get f) <;> rfl

theorem lookupField_clearIdx (idx : IndexT) (f : String) :
    lookupField (clearIdx idx) f =
      (lookupField idx f).map (fun _ => ([] : List (List JSVal))) := by
  have hg : ∀ x : String × List (List JSVal),
      ((fun fb => (fb.1, ([] : List (List JSVal)))) x).1 = x.1 := fun x => rfl
  unfold lookupField clearIdx
  rw [find?_map_fst _ hg]
  cases hfind : idx.find? (fun fb => decide (fb.1 = f)) <;> rfl

theorem lookupField_reindexFold (f : String) (data : List Record) :
    ∀ (start : Nat) (idx : IndexT),
    lookupField (reindexFold idx data start) f =
      (lookupField idx f).map (fun bs => bucketsFold f bs data start) := by
  induction data with
  | nil =>
    intro start idx
    cases h : lookupField idx f <;> simp [reindexFold, bucketsFold, h]
  | cons r rest ih =>
    intro start idx
    show lookupField (reindexFold (applyIndicesT r start idx) rest (start + 1)) f = _
    rw [ih (start + 1) (applyIndicesT r start idx), lookupField_applyIndicesT]
    cases h : lookupField idx f with
    | none => rfl
    | some bs => rfl

theorem unapplyIndicesT_eq_id (num : Nat) (idx : IndexT) :
    unapplyIndicesT num idx = idx := by
  unfold unapplyIndicesT
  have hnone : ∀ bs : List (List JSVal),
      bs.findIdx? (fun b => bucketEqNum b num) = none :=
    fun bs => List.findIdx?_eq_none_iff.2 (fun b _ => rfl)
  calc (idx : List (String × List (List JSVal))).map (fun fb =>
        match fb.2.findIdx? (fun b => bucketEqNum b num) with
        | some i => (fb.1, fb.2.eraseIdx i)
        | none => fb)
      = idx.map (fun fb => fb) := by
        apply List.map_congr_left
        intro fb _
        rw [hnone fb.2]
    _ = idx := List.map_id' idx

theorem applyIndicesT_fst (r : Record) (n : Nat) (idx : IndexT) :
    (applyIndicesT r n idx).map Prod.fst = idx.map Prod.fst := by
  unfold applyIndicesT
  rw [List.map_map]
  apply List.map_congr_left
  intro fb _
  show (match r.get fb.1 with
        | none => fb
        | some v => (fb.1, bucketsApply v n fb.2)).1 = fb.1
  cases (r.get fb.1) <;> rfl

theorem updateIndiceT_fst (f : String) (oldV newV : Option JSVal) (num : Nat)
    (idx : IndexT) :
    (updateIndiceT f oldV newV num idx).map Prod.fst = idx.map Prod.fst := by
  unfold updateIndiceT
  by_cases hc : (lookupField idx f).isNone = true ∨ oldV = newV
  · rw [if_pos hc]
  · rw [if_neg hc]
    rw [List.map_map]
    apply List.map_congr_left
    intro fb _
    show (if fb.1 = f then (fb.1, updateIndiceLoop oldV newV num fb.2 0)
          else fb).1 = fb.1
    by_cases hfb : fb.1 = f
    · rw [if_pos hfb]
    · rw [if_neg hfb]

theorem runOp_index_fst (s : Store) (op : Op) :
    ((runOp s op)._index).map Prod.fst = s._index.map Prod.fst := by
  cases op with
  | add r =>
    show ((match add s r with
          | .ok s1 => s1
          | .error _ => s)._index).map Prod.fst = _
    unfold add
    by_cases h1 : (isDuplicate s r : Prop) ∧ ¬(s.allowDuplicates : Prop)
    · rw [if_pos h1]
      by_cases h2 : (s.errorOnDuplicate : Prop)
      · rw [if_pos h2]
      · rw [if_neg h2]
    · rw [if_neg h1]
      dsimp only
      by_cases h2 : ¬(s._loading : Prop) ∧ r ∉ s._created
      · rw [if_pos h2]
        exact applyIndicesT_fst r s._data.length s._index
      · rw [if_neg h2]
        exact applyIndicesT_fst r s._data.length s._index
  | remove n =>
    show ((match removeAt s n with
          | .ok s1 => s1
          | .error _ => s)._index).map Prod.fst = _
    unfold removeAt
    by_cases h1 : n < 0
    · rw [if_pos h1]
    · rw [if_neg h1]
      dsimp only
      cases hrem : (s._data.drop n.toNat).take 1 with
      | nil => rfl
      | cons rec t =>
        dsimp only
        rw [unapplyIndicesT_eq_id]
        by_cases h2 : ¬(s._loading : Prop)
        · rw [if_pos h2]
          cases hidx : s._created.findIdx? (fun x => decide (x = rec)) with
          | some i => rfl
          | none =>
            dsimp only
            by_cases h3 : rec ∈ s._deleted
            · rw [if_pos h3]
            · rw [if_neg h3]
        · rw [if_neg h2]
  | mutate p f v =>
    show ((mutateField s p f v)._index).map Prod.fst = _
    unfold mutateField
    cases hg : s._data.get? p with
    | none => rfl
    | some r =>
      dsimp only
      exact updateIndiceT_fst f (r.get f) v _ s._index

theorem runOps_index_fst (s : Store) (ops : List Op) :
    ((runOps s ops)._index).map Prod.fst = s._index.map Prod.fst := by
  induction ops generalizing s with
  | nil => rfl
  | cons op rest ih =>
    show ((runOps (runOp s op) rest)._index).map Prod.fst = _
    rw [ih (runOp s op), runOp_index_fst]

theorem lookupField_isSome_of_mem_fst (idx : IndexT) (f : String)
    (h : f ∈ idx.map Prod.fst) : (lookupField idx f).isSome = true := by
  unfold lookupField
  cases hfind : idx.find? (fun fb => decide (fb.1 = f)) with
  | none =>
    exfalso
    obtain ⟨fb, hfb, hfb1⟩ := List.mem_map.1 h
    have hs : (idx.find? (fun fb => decide (fb.1 = f))).isSome = true :=
      List.find?_isSome.2 ⟨fb, hfb, by simp [hfb1]⟩
    rw [hfind] at hs
    cases hs
  | some fb => rfl

/-! C1 machinery, part two: how one applyIndices step transforms the
bucket list of a field. -/

theorem bucketsApply_ne_nil (v : JSVal) (n : Nat) (bs : List (List JSVal))
    (h : ∀ b ∈ bs, b ≠ []) : ∀ b ∈ bucketsApply v n bs, b ≠ [] := by
  induction bs with
  | nil =>
    intro b hb
    have hb2 : b = [v, JSVal.num n] := by simpa [bucketsApply] using hb
    rw [hb2]
    simp
  | cons b0 t ih =>
    intro b hb
    unfold bucketsApply at hb
    by_cases h0 : b0.head? = some v
    · rw [if_pos h0] at hb
      rcases List.mem_cons.1 hb with rfl | hbt
      · simp
      · exact h b (List.mem_cons_of_mem _ hbt)
    · rw [if_neg h0] at hb
      rcases List.mem_cons.1 hb with rfl | hbt
      · exact h b (List.mem_cons_self _ _)
      · exact ih (fun x hx => h x (List.mem_cons_of_mem _ hx)) b hbt

theorem bucketsApply_heads_mem (v : JSVal) (n : Nat) (bs : List (List JSVal))
    (hex : ∃ b ∈ bs, b.head? = some v) :
    (bucketsApply v n bs).map List.head? = bs.map List.head? := by
  induction bs with
  | nil => simp at hex
  | cons b0 t ih =>
    by_cases h0 : b0.head? = some v
    · unfold bucketsApply
      rw [if_pos h0]
      simp only [List.map_cons]
      congr 1
      rw [List.head?_append, h0]
      rfl
    · unfold bucketsApply
      rw [if_neg h0]
      simp only [List.map_cons]
      congr 1
      apply ih
      rcases hex with ⟨b, hb, hbv⟩
      rcases List.mem_cons.1 hb with rfl | hbt
      · exact absurd hbv h0
      · exact ⟨b, hbt, hbv⟩

theorem bucketsApply_heads_new (v : JSVal) (n : Nat) (bs : List (List JSVal))
    (hnew : ∀ b ∈ bs, b.head? ≠ some v) :
    (bucketsApply v n bs).map List.head? = bs.map List.head? ++ [some v] := by
  induction bs with
  | nil => rfl
  | cons b0 t ih =>
    have h0 : b0.head? ≠ some v := hnew b0 (List.mem_cons_self _ _)
    unfold bucketsApply
    rw [if_neg h0]
    simp only [List.map_cons, List.cons_append]
    congr 1
    exact ih (fun b hb => hnew b (List.mem_cons_of_mem _ hb))

theorem bucketsApply_mem_iff (v : JSVal) (n : Nat) (bs : List (List JSVal))
    (w : JSVal) (x : JSVal) (hne : ∀ b ∈ bs, b ≠ []) :
    (∃ b ∈ bucketsApply v n bs, b.head? = some w ∧ x ∈ b.drop 1) ↔
    ((∃ b ∈ bs, b.head? = some w ∧ x ∈ b.drop 1) ∨
      (w = v ∧ x = JSVal.num n)) := by
  induction bs with
  | nil =>
    constructor
    · rintro ⟨b, hb, hbw, hx⟩
      have hb2 : b = [v, JSVal.num n] := by simpa [bucketsApply] using hb
      subst hb2
      right
      refine ⟨?_, ?_⟩
      · have : some v = some w := by simpa using hbw
        exact (Option.some.inj this).symm
      · simpa using hx
    · rintro (⟨b, hb, _, _⟩ | ⟨hwv, hxn⟩)
      · cases hb
      · exact ⟨[v, JSVal.num n], by simp [bucketsApply], by simp [hwv],
          by simp [hxn]⟩
  | cons b0 t ih =>
    have hne0 : b0 ≠ [] := hne b0 (List.mem_cons_self _ _)
    have hnet : ∀ b ∈ t, b ≠ [] := fun b hb => hne b (List.mem_cons_of_mem _ hb)
    by_cases h0 : b0.head? = some v
    · have hdrop : (b0 ++ [JSVal.num n]).drop 1 = b0.drop 1 ++ [JSVal.num n] :=
        List.drop_append_of_le_length (by
          cases b0 with
          | nil => exact absurd rfl hne0
          | cons c cb => simp)
      have hhead : (b0 ++ [JSVal.num n]).head? = some v := by
        rw [List.head?_append, h0]
        rfl
      unfold bucketsApply
      rw [if_pos h0]
      constructor
      · rintro ⟨b, hb, hbw, hx⟩
        rcases List.mem_cons.1 hb with rfl | hbt
        · have hwv : w = v := by
            rw [hhead] at hbw
            exact (Option.some.inj hbw).symm
          rw [hdrop] at hx
          rcases List.mem_append.1 hx with hxl | hxr
          · left
            exact ⟨b0, List.mem_cons_self _ _, by rw [h0, hwv], hxl⟩
          · right
            exact ⟨hwv, by simpa using hxr⟩
        · left
          exact ⟨b, List.mem_cons_of_mem _ hbt, hbw, hx⟩
      · rintro (⟨b, hb, hbw, hx⟩ | ⟨hwv, hxn⟩)
        · rcases List.mem_cons.1 hb with rfl | hbt
          · refine ⟨b ++ [JSVal.num n], List.mem_cons_self _ _, ?_, ?_⟩
            · rw [List.head?_append, hbw]
              rfl
            · rw [hdrop]
              exact List.mem_append.2 (Or.inl hx)
          · exact ⟨b, List.mem_cons_of_mem _ hbt, hbw, hx⟩
        · refine ⟨b0 ++ [JSVal.num n], List.mem_cons_self _ _, ?_, ?_⟩
          · rw [hhead, hwv]
          · rw [hdrop, hxn]
            exact List.mem_append.2 (Or.inr (by simp))
    · unfold bucketsApply
      rw [if_neg h0]
      constructor
      · rintro ⟨b, hb, hbw, hx⟩
        rcases List.mem_cons.1 hb with rfl | hbt
        · left
          exact ⟨b, List.mem_cons_self _ _, hbw, hx⟩
        · rcases (ih hnet).1 ⟨b, hbt, hbw, hx⟩ with hL | hR
          · obtain ⟨b2, hb2, hw2, hx2⟩ := hL
            left
            exact ⟨b2, List.mem_cons_of_mem _ hb2, hw2, hx2⟩
          · right
            exact hR
      · rintro (⟨b, hb, hbw, hx⟩ | hR)
        · rcases List.mem_cons.1 hb with rfl | hbt
          · exact ⟨b, List.mem_cons_self _ _, hbw, hx⟩
          · obtain ⟨b2, hb2, hw2, hx2⟩ :=
              (ih hnet).2 (Or.inl ⟨b, hbt, hbw, hx⟩)
            exact ⟨b2, List.mem_cons_of_mem _ hb2, hw2, hx2⟩
        · obtain ⟨b2, hb2, hw2, hx2⟩ := (ih hnet).2 (Or.inr hR)
          exact ⟨b2, List.mem_cons_of_mem _ hb2, hw2, hx2⟩

/-! C1 machinery, part three: the reindex invariant.  Folding the records
through the bucket scan keeps buckets nonempty, keeps bucket values
pairwise distinct, and keeps bucket membership synchronized with the
record field values. -/

theorem goodBuckets_step (data : List Record) (f : String) (n : Nat)
    (bs : List (List JSVal)) (r : Record)
    (hg : GoodBuckets data f n bs) (hr : data.get? n = some r) :
    GoodBuckets data f (n + 1)
      (match r.get f with
       | some v => bucketsApply v n bs
       | none => bs) := by
  obtain ⟨hne, hnd, hiff⟩ := hg
  cases hrf : r.get f with
  | none =>
    refine ⟨hne, hnd, ?_⟩
    intro w x
    rw [hiff w x]
    constructor
    · rintro ⟨p, r2, hx, hp, hgetp, hval⟩
      exact ⟨p, r2, hx, by omega, hgetp, hval⟩
    · rintro ⟨p, r2, hx, hp, hgetp, hval⟩
      refine ⟨p, r2, hx, ?_, hgetp, hval⟩
      have hcase : p < n ∨ p = n := by omega
      rcases hcase with h | h
      · exact h
      · exfalso
        subst h
        rw [hr] at hgetp
        have hr2 : r2 = r := (Option.some.inj hgetp).symm
        rw [hr2, hrf] at hval
        cases hval
  | some v0 =>
    refine ⟨bucketsApply_ne_nil v0 n bs hne, ?_, ?_⟩
    · by_cases hex : ∃ b ∈ bs, b.head? = some v0
      · rw [bucketsApply_heads_mem v0 n bs hex]
        exact hnd
      · push_neg at hex
        rw [bucketsApply_heads_new v0 n bs hex]
        rw [List.nodup_append]
        refine ⟨hnd, List.nodup_singleton _, ?_⟩
        intro a ha hb
        have ha2 : a = some v0 := by simpa using hb
        obtain ⟨b, hbmem, hbh⟩ := List.mem_map.1 ha
        exact hex b hbmem (hbh.trans ha2)
    · intro w x
      rw [bucketsApply_mem_iff v0 n bs w x hne]
      constructor
      · rintro (hL | ⟨hwv, hxn⟩)
        · obtain ⟨p, r2, hx, hp, hgetp, hval⟩ := (hiff w x).1 hL
          exact ⟨p, r2, hx, by omega, hgetp, hval⟩
        · exact ⟨n, r, hxn, by omega, hr, by rw [hrf, hwv]⟩
      · rintro ⟨p, r2, hx, hp, hgetp, hval⟩
        have hcase : p < n ∨ p = n := by omega
        rcases hcase with h | h
        · exact Or.inl ((hiff w x).2 ⟨p, r2, hx, h, hgetp, hval⟩)
        · subst h
          right
          rw [hr] at hgetp
          have hr2 : r2 = r := (Option.some.inj hgetp).symm
          rw [hr2, hrf] at hval
          exact ⟨(Option.some.inj hval).symm, hx⟩

theorem bucketsFold_good (data : List Record) (f : String) :
    ∀ (rest : List Record) (n : Nat) (bs : List (List JSVal)),
    GoodBuckets data f n bs → data.drop n = rest →
    GoodBuckets data f (n + rest.length) (bucketsFold f bs rest n) := by
  intro rest
  induction rest with
  | nil =>
    intro n bs hg _
    simpa [bucketsFold] using hg
  | cons r rest ih =>
    intro n bs hg hdrop
    have hget : data.get? n = some r := by
      rw [List.get?_eq_getElem?, ← List.head?_drop, hdrop]
      rfl
    have hdrop1 : data.drop (n + 1) = rest := by
      have h2 := List.drop_drop 1 n data
      rw [hdrop] at h2
      simpa using h2.symm
    have hstep := goodBuckets_step data f n bs r hg hget
    have hrec := ih (n + 1) _ hstep hdrop1
    show GoodBuckets data f (n + (rest.length + 1)) (bucketsFold f bs (r :: rest) n)
    have harith : n + (rest.length + 1) = (n + 1) + rest.length := by omega
    rw [harith]
    exact hrec

theorem filter_head_unique (bs : List (List JSVal)) (v : JSVal)
    (hnd : (bs.map List.head?).Nodup) :
    bs.filter (fun b => decide (b.head? = some v)) = [] ∨
    ∃ b, bs.filter (fun b => decide (b.head? = some v)) = [b] := by
  induction bs with
  | nil => exact Or.inl rfl
  | cons b0 t ih =>
    rw [List.map_cons, List.nodup_cons] at hnd
    obtain ⟨hnotin, hndt⟩ := hnd
    by_cases h0 : b0.head? = some v
    · right
      refine ⟨b0, ?_⟩
      rw [List.filter_cons_of_pos (by simp [h0])]
      have hnilt : t.filter (fun b => decide (b.head? = some v)) = [] := by
        apply List.filter_eq_nil_iff.2
        intro b hb
        simp only [decide_eq_true_eq]
        intro hbv
        exact hnotin (List.mem_map.2 ⟨b, hb, hbv.trans h0.symm⟩)
      rw [hnilt]
    · rw [List.filter_cons_of_neg (by simp [h0])]
      exact ih hndt

/-! C1 — lookup correctness after a reindex. -/

/-- C1: starting from a store whose configuration indexes field f, after
any sequence of add, remove and field-mutation operations followed by a
reindex, getIndices(f, v) is a successful lookup whose members are exactly
the encodings of the positions p such that the record currently at
position p holds value v for field f. -/
theorem c1_index_lookup_after_reindex (flds : List String)
    (aDup eDup : Bool) (ops : List Op) (f : String) (v : JSVal)
    (hf : f ∈ flds) :
    ∃ result,
      getIndices (reindex (runOps (mkStore flds aDup eDup) ops)) f v =
        some result ∧
      ∀ x, x ∈ result ↔ ∃ p r, x = JSVal.num p ∧
        (reindex (runOps (mkStore flds aDup eDup) ops))._data.get? p =
          some r ∧ r.get f = some v := by
  set s0 := runOps (mkStore flds aDup eDup) ops with hs0
  have hkeys : s0._index.map Prod.fst = flds := by
    rw [hs0, runOps_index_fst]
    show ((flds.map (fun g => (g, ([] : List (List JSVal))))).map Prod.fst) =
      flds
    rw [List.map_map]
    exact List.map_id' flds
  have hsome : (lookupField s0._index f).isSome = true :=
    lookupField_isSome_of_mem_fst _ f (by rw [hkeys]; exact hf)
  obtain ⟨bs0, hbs0⟩ := Option.isSome_iff_exists.1 hsome
  have hlook : lookupField (reindex s0)._index f =
      some (bucketsFold f [] s0._data 0) := by
    show lookupField (reindexFold (clearIdx s0._index) s0._data 0) f = _
    rw [lookupField_reindexFold, lookupField_clearIdx, hbs0]
    rfl
  have hgood : GoodBuckets s0._data f s0._data.length
      (bucketsFold f [] s0._data 0) := by
    have h0 : GoodBuckets s0._data f 0 [] := by
      refine ⟨by simp, by simp, ?_⟩
      intro w x
      simp
    have hfold := bucketsFold_good s0._data f s0._data 0 [] h0 (List.drop_zero s0._data)
    simpa using hfold
  obtain ⟨hne, hnd, hiff⟩ := hgood
  have hfc : (bucketsFold f [] s0._data 0).filter
        (fun b => decide (b.length > 0) && decide (b.head? = some v)) =
      (bucketsFold f [] s0._data 0).filter
        (fun b => decide (b.head? = some v)) := by
    apply List.filter_congr
    intro b hb
    have hbne : b ≠ [] := hne b hb
    have hlen : b.length > 0 := List.length_pos.2 hbne
    simp [hlen]
  have hget : getIndices (reindex s0) f v =
      (match (bucketsFold f [] s0._data 0).filter
          (fun b => decide (b.head? = some v)) with
       | [b] => some (b.drop 1)
       | _ => some []) := by
    unfold getIndices getIndicesT
    rw [hlook]
    dsimp only
    rw [hfc]
  have hdata : (reindex s0)._data = s0._data := rfl
  rcases filter_head_unique (bucketsFold f [] s0._data 0) v hnd with
    hflt | ⟨b, hflt⟩
  · refine ⟨[], ?_, ?_⟩
    · rw [hget, hflt]
    · intro x
      simp only [List.not_mem_nil, false_iff]
      rintro ⟨p, r, hx, hgetp, hval⟩
      rw [hdata] at hgetp
      have hp : p < s0._data.length := by
        rw [List.get?_eq_getElem?] at hgetp
        exact (List.getElem?_eq_some_iff.1 hgetp).1
      obtain ⟨b2, hb2mem, hb2h, hb2x⟩ :=
        (hiff v x).2 ⟨p, r, hx, hp, hgetp, hval⟩
      have hmem2 : b2 ∈ (bucketsFold f [] s0._data 0).filter
          (fun b => decide (b.head? = some v)) :=
        List.mem_filter.2 ⟨hb2mem, by simp [hb2h]⟩
      rw [hflt] at hmem2
      cases hmem2
  · have hbfil : b ∈ (bucketsFold f [] s0._data 0).filter
        (fun b => decide (b.head? = some v)) := by
      rw [hflt]
      exact List.mem_cons_self b []
    have hbmem : b ∈ bucketsFold f [] s0._data 0 :=
      List.mem_of_mem_filter hbfil
    have hbh : b.head? = some v := by
      have hpred := List.of_mem_filter hbfil
      simpa using hpred
    refine ⟨b.drop 1, ?_, ?_⟩
    · rw [hget, hflt]
    · intro x
      constructor
      · intro hx
        obtain ⟨p, r, hx2, _hp, hgetp, hval⟩ :=
          (hiff v x).1 ⟨b, hbmem, hbh, hx⟩
        exact ⟨p, r, hx2, hgetp, hval⟩
      · rintro ⟨p, r, hx2, hgetp, hval⟩
        rw [hdata] at hgetp
        have hp : p < s0._data.length := by
          rw [List.get?_eq_getElem?] at hgetp
          exact (List.getElem?_eq_some_iff.1 hgetp).1
        obtain ⟨b2, hb2mem, hb2h, hb2x⟩ :=
          (hiff v x).2 ⟨p, r, hx2, hp, hgetp, hval⟩
        have hmem2 : b2 ∈ (bucketsFold f [] s0._data 0).filter
            (fun b => decide (b.head? = some v)) :=
          List.mem_filter.2 ⟨hb2mem, by simp [hb2h]⟩
        rw [hflt] at hmem2
        have hb2b : b2 = b := by simpa using hmem2
        rw [hb2b] at hb2x
        exact hb2x

/-- C1 witness: the lookup characterization applied to a concrete history
of one add, one field mutation and one failed remove over a store indexed
on field a. -/
theorem c1_witness :
    ∃ result,
      getIndices (reindex (runOps (mkStore ["a"] true true)
          [.add cRecA, .mutate 0 "a" (some (.num 5)), .remove 7])) "a"
        (.num 5) = some result ∧
      ∀ x, x ∈ result ↔ ∃ p r, x = JSVal.num p ∧
        (reindex (runOps (mkStore ["a"] true true)
          [.add cRecA, .mutate 0 "a" (some (.num 5)),
            .remove 7]))._data.get? p = some r ∧ r.get "a" = some (.num 5) :=
  c1_index_lookup_after_reindex ["a"] true true
    [.add cRecA, .mutate 0 "a" (some (.num 5)), .remove 7] "a" (.num 5)
    (by decide)

end NgnStore
